import Mathlib

/-!
Shallow embedding of the Cache repository (LRU, LRU-K, LFU and ARC engines,
plus the hash-sharded wrappers) and verification of the spec claims.

Modelling conventions, shared by all engines:
* Keys are `Nat`; values are a type parameter (the demo instantiates
  `std::string`, modelled as `String`).
* `std::unordered_map<Key, ...>` is modelled as an association list whose
  lookup finds the first binding.  The C++ maps keep keys unique, so first
  match is the unique match in every state the engines build.
* The doubly linked recency lists (dummy head/tail sentinels) are modelled as
  Lean lists with the head of the Lean list at the `dummyHead_` end (the LRU /
  eviction end) and the tail at the `dummyTail_` end (the MRU end).
* Each engine keeps its index map and its ordering structure as separate
  fields, exactly as the C++ keeps `nodeMap_` next to the linked list, so that
  the two can disagree when the code lets them (LruKCache does).
-/

/-- First-match association-list lookup, modelling `unordered_map::find`. -/
def alookup {α : Type} (m : List (Nat × α)) (k : Nat) : Option α :=
  match m with
  | [] => none
  | (k', v) :: rest => if k' = k then some v else alookup rest k

/-- `unordered_map` assignment `m[k] = v`: replace the first binding of `k`,
or append a new binding. -/
def aset {α : Type} (m : List (Nat × α)) (k : Nat) (v : α) : List (Nat × α) :=
  match m with
  | [] => [(k, v)]
  | (k', v') :: rest => if k' = k then (k, v) :: rest else (k', v') :: aset rest k v

/-- `unordered_map::erase` of the binding of `k` (first match). -/
def aerase {α : Type} (m : List (Nat × α)) (k : Nat) : List (Nat × α) :=
  match m with
  | [] => []
  | (k', v') :: rest => if k' = k then rest else (k', v') :: aerase rest k

/-! ## LruCache (src/LruCache.h) -/

/-- State of `LruCache<Nat, V>`: the fixed capacity, the recency list
(`dummyHead_ → ... → dummyTail_`, head of the Lean list = LRU end) holding the
keys of the linked nodes, and `nodeMap_` holding the value of each node.  The
list and the map are the two halves of the C++ node soup: a node's key sits in
`order` through its list links and in `map` through the index. -/
structure LruState (V : Type) where
  capacity : Nat
  order : List Nat
  map : List (Nat × V)
  deriving Repr, DecidableEq

/-- A fresh `LruCache(capacity)`. -/
def lruInit (V : Type) (capacity : Nat) : LruState V :=
  { capacity := capacity, order := [], map := [] }

/-- `LruCache::addNewNode`: evict the head-adjacent node (erasing its map
entry) when the map is at capacity, then link the new node at the tail and
index it.  When the recency list is empty the C++ would unlink the tail
sentinel and erase the sentinel's (uninitialised) key — a corrupt state no
theorem below ever reaches; it is modelled as skipping the eviction. -/
def lruAddNewNode {V : Type} (s : LruState V) (k : Nat) (v : V) : LruState V :=
  let s1 :=
    if s.map.length ≥ s.capacity then
      match s.order with
      | [] => s
      | h :: t => { s with map := aerase s.map h, order := t }
    else s
  { s1 with map := aset s1.map k v, order := s1.order ++ [k] }

/-- `LruCache::put`. -/
def lruPut {V : Type} (s : LruState V) (k : Nat) (v : V) : LruState V :=
  if s.capacity = 0 then s
  else
    match alookup s.map k with
    | some _ => { s with map := aset s.map k v, order := s.order.erase k ++ [k] }
    | none => lruAddNewNode s k v

/-- `LruCache::get(key, value)`: on a hit, move the node to the MRU end and
return its value; `none` is the `false` return.  (`Value get(Key)` is this
with `Option.getD` of the default-constructed value.) -/
def lruGetB {V : Type} (s : LruState V) (k : Nat) : Option V × LruState V :=
  match alookup s.map k with
  | some v => (some v, { s with order := s.order.erase k ++ [k] })
  | none => (none, s)

/-! ## LruKCache (src/LruCache.h, lines 158-215) -/

/-- State of `LruKCache<Nat, V>`: the inherited main `LruCache<Nat, V>` and the
owned `historyList_ : LruCache<Nat, size_t>` whose values are access counts,
plus the promotion threshold `k_`. -/
structure LruKState (V : Type) where
  main : LruState V
  history : LruState Nat
  kThr : Nat
  deriving Repr, DecidableEq

/-- A fresh `LruKCache(capacity, historyCapacity, k)`. -/
def lruKInit (V : Type) (capacity historyCapacity kThr : Nat) : LruKState V :=
  { main := lruInit V capacity, history := lruInit Nat historyCapacity, kThr := kThr }

/-- `LruKCache::put`.  The initial `LruCache::get(key, tempValue)` probes (and
on a hit reorders) the main cache; on a main miss the history count is fetched
(0 when absent), bumped and stored, and when it reaches `k_` the code calls
`historyList_->removeNode(historyList_->nodeMap_[key])` — which unlinks the
node from the history recency list but never erases the history map entry —
and then installs the pair in the main cache. -/
def lruKPut {V : Type} (s : LruKState V) (k : Nat) (v : V) : LruKState V :=
  let probe := lruGetB s.main k
  match probe.1 with
  | some _ => { s with main := lruPut probe.2 k v }
  | none =>
    let hprobe := lruGetB s.history k
    let newCount := hprobe.1.getD 0 + 1
    let hist2 := lruPut hprobe.2 k newCount
    if newCount ≥ s.kThr then
      { s with history := { hist2 with order := hist2.order.erase k },
               main := lruPut probe.2 k v }
    else
      { s with history := hist2, main := probe.2 }

/-- `LruKCache::get` (the `Value get(Key)` overload): bump the history count
for the key, then answer from the main cache.  `none` models the
default-constructed value the C++ returns on a main miss. -/
def lruKGet {V : Type} (s : LruKState V) (k : Nat) : Option V × LruKState V :=
  let hprobe := lruGetB s.history k
  let hist2 := lruPut hprobe.2 k (hprobe.1.getD 0 + 1)
  let mprobe := lruGetB s.main k
  (mprobe.1, { s with history := hist2, main := mprobe.2 })

/-! ## LfuCache (src/LfuCache.h)

`FreqList::addNode` links a node right after the list's head sentinel, and the
eviction victim is `tail_->pre`, so within a bucket the head of the Lean list
is the newest arrival and the last element the oldest.  `removeNode` only
unlinks, so a `FreqList` that becomes empty stays present in
`freqToFreqList_`; the model keeps such `(freq, [])` entries because the aging
pass iterates over exactly the lists present in the map. -/

/-- State of `LfuCache<Nat, V>`.  `map` is `nodeMap_` (key ↦ node freq and
value, in insertion order — the aging pass iterates it); `buckets` is
`freqToFreqList_` (freq ↦ keys of the bucket's nodes, newest first), in
creation order, empty buckets retained. -/
structure LfuState (V : Type) where
  capacity : Nat
  minFreq : Nat
  maxAvg : Nat
  curAvg : Nat
  curTotal : Nat
  map : List (Nat × Nat × V)
  buckets : List (Nat × List Nat)
  deriving Repr, DecidableEq

/-- A fresh `LfuCache(capacity, maxAverageNum)`. -/
def lfuInit (V : Type) (capacity maxAvg : Nat) : LfuState V :=
  { capacity := capacity, minFreq := 1, maxAvg := maxAvg, curAvg := 0,
    curTotal := 0, map := [], buckets := [] }

/-- `LfuCache::addToFreqList`: create the bucket if absent, then link the node
right after the bucket's head sentinel (newest end). -/
def lfuAddToFreqList (bs : List (Nat × List Nat)) (f : Nat) (k : Nat) :
    List (Nat × List Nat) :=
  match alookup bs f with
  | some l => aset bs f (k :: l)
  | none => bs ++ [(f, [k])]

/-- `LfuCache::removeFromFreqList`: unlink the node from its bucket; the
bucket itself stays in the map even when it becomes empty. -/
def lfuRemoveFromFreqList (bs : List (Nat × List Nat)) (f : Nat) (k : Nat) :
    List (Nat × List Nat) :=
  match alookup bs f with
  | some l => aset bs f (l.erase k)
  | none => bs

/-- The aging pass body of `LfuCache::updateAveAndTotalFreqNum` for one node:
unlink it, decay its frequency by `maxAverageNum_ / 2` flooring at 1, relink
it.  (`freq -= maxAverageNum_/2; if (freq < 1) freq = 1` on ints equals
truncated `Nat` subtraction followed by the floor.) -/
def lfuAgeNode {V : Type} (half : Nat) (s : LfuState V) (e : Nat × Nat × V) :
    LfuState V :=
  let k := e.1
  let f := e.2.1
  let v := e.2.2
  let nf := if f - half < 1 then 1 else f - half
  { s with map := aset s.map k (nf, v),
           buckets := lfuAddToFreqList (lfuRemoveFromFreqList s.buckets f k) nf k }

/-- The `minFreq_` recomputation closing the aging pass.  The C++ condition is
`pair.second && ! !pair.second->isEmpty()` — a double negation, so the fold
takes the minimum over the frequencies whose bucket IS empty, starting from
`INT8_MAX` (127), and falls back to 1 when the accumulator is still 127. -/
def lfuRecomputeMinFreq (bs : List (Nat × List Nat)) : Nat :=
  let m := bs.foldl (fun acc p => if p.2.isEmpty then min acc p.1 else acc) 127
  if m = 127 then 1 else m

/-- `LfuCache::updateAveAndTotalFreqNum`: bump the running total, recompute
the integer average, and when it exceeds `maxAverageNum_` decay every resident
node and recompute `minFreq_`. -/
def lfuUpdateAve {V : Type} (s : LfuState V) : LfuState V :=
  let total := s.curTotal + 1
  let avg := if s.map.isEmpty then 0 else total / s.map.length
  let s1 := { s with curTotal := total, curAvg := avg }
  if avg > s1.maxAvg then
    if s1.map.isEmpty then s1
    else
      let s2 := s1.map.foldl (lfuAgeNode (s1.maxAvg / 2)) s1
      { s2 with minFreq := lfuRecomputeMinFreq s2.buckets }
  else s1

/-- `LfuCache::updateNodePos` for a node currently at frequency `f`: move it
to bucket `f+1`, advance `minFreq_` when the node drained the minimum bucket,
then run the average/aging update. -/
def lfuUpdateNodePos {V : Type} (s : LfuState V) (k f : Nat) (v : V) : LfuState V :=
  let bs := lfuAddToFreqList (lfuRemoveFromFreqList s.buckets f k) (f + 1) k
  let mf :=
    if f = s.minFreq ∧ ((alookup bs f).getD []).isEmpty then s.minFreq + 1
    else s.minFreq
  lfuUpdateAve { s with map := aset s.map k (f + 1, v), buckets := bs, minFreq := mf }

/-- The eviction branch of `LfuCache::put`: unlink `tail_->pre` of
`freqToFreqList_[minFreq_]` (the bucket's oldest node), erase it from
`nodeMap_`, and rebalance the totals.  When that bucket is empty the C++
unlinks nothing and erases the head sentinel's uninitialised key — a state no
theorem below reaches; it is modelled as skipping the eviction. -/
def lfuEvict {V : Type} (s : LfuState V) : LfuState V :=
  match ((alookup s.buckets s.minFreq).getD []).getLast? with
  | none => s
  | some victim =>
    let map2 := aerase s.map victim
    { s with buckets := lfuRemoveFromFreqList s.buckets s.minFreq victim,
             map := map2,
             curTotal := s.curTotal - s.minFreq,
             curAvg := if map2.isEmpty then 0
                       else (s.curTotal - s.minFreq) / map2.length }

/-- `LfuCache::put`.  Note that the new-key branch never assigns `minFreq_`. -/
def lfuPut {V : Type} (s : LfuState V) (k : Nat) (v : V) : LfuState V :=
  if s.capacity = 0 then s
  else
    match alookup s.map k with
    | some fv => lfuUpdateNodePos { s with map := aset s.map k (fv.1, v) } k fv.1 v
    | none =>
      let s1 := if s.map.length ≥ s.capacity then lfuEvict s else s
      lfuUpdateAve
        { s1 with map := s1.map ++ [(k, 1, v)],
                  buckets := lfuAddToFreqList s1.buckets 1 k }

/-- `LfuCache::get(key, value)`. -/
def lfuGet {V : Type} (s : LfuState V) (k : Nat) : Option V × LfuState V :=
  match alookup s.map k with
  | some fv => (some fv.2, lfuUpdateNodePos s k fv.1 fv.2)
  | none => (none, s)

/-! ## ArcLruPart (src/ArcCache/ArcLruPart.h)

Nodes carry key, value and `accessCount_`; the main recency list again has the
LRU victim next to the dummy head (head of the Lean list) and the MRU node at
the tail.  The ghost list is FIFO: pushed at the tail, overflow dropped from
the head; only keys are ever read back from ghosts. -/

/-- State of `ArcLruPart<Nat, V>`.  `main` lists the resident nodes in
recency order as `(key, value, accessCount)` with the map side implicit (the
part keeps `mainCache_` and the list in lockstep); `ghost` lists ghost keys
oldest first. -/
structure ArcLruState (V : Type) where
  capacity : Nat
  ghostCapacity : Nat
  threshold : Nat
  main : List (Nat × V × Nat)
  ghost : List Nat
  deriving Repr, DecidableEq

/-- A fresh `ArcLruPart(capacity, transformThreshold)`. -/
def arcLruInit (V : Type) (capacity threshold : Nat) : ArcLruState V :=
  { capacity := capacity, ghostCapacity := capacity, threshold := threshold,
    main := [], ghost := [] }

/-- `ArcLruPart::removeMainToGhost(mainHead_->next_)` (both call sites pass
the LRU victim): unlink the victim from the main list and index, drop the
ghost FIFO's head if the ghost is at capacity, then push the victim's key at
the ghost tail.  When the ghost is simultaneously "at capacity" and empty
(ghost capacity 0) the C++ returns before the push and the node is dropped
entirely. -/
def arcLruEvictToGhost {V : Type} (s : ArcLruState V) : ArcLruState V :=
  match s.main with
  | [] => s
  | e :: rest =>
    let s1 := { s with main := rest }
    if s1.ghost.length ≥ s1.ghostCapacity then
      match s1.ghost with
      | [] => s1
      | _ :: gt => { s1 with ghost := gt ++ [e.1] }
    else { s1 with ghost := s1.ghost ++ [e.1] }

/-- `ArcLruPart::addNewNode`: evict the LRU victim to the ghost when at
capacity, then link the new node (access count 1) at the MRU end. -/
def arcLruAddNewNode {V : Type} (s : ArcLruState V) (k : Nat) (v : V) :
    ArcLruState V :=
  let s1 := if s.main.length ≥ s.capacity then arcLruEvictToGhost s else s
  { s1 with main := s1.main ++ [(k, v, 1)] }

/-- Lookup of a key in an ARC main list (the `mainCache_` index). -/
def arcMainLookup {V : Type} (m : List (Nat × V × Nat)) (k : Nat) :
    Option (V × Nat) :=
  match m with
  | [] => none
  | (k', v, c) :: rest => if k' = k then some (v, c) else arcMainLookup rest k

/-- Unlinking a key's node from an ARC main list. -/
def arcMainErase {V : Type} (m : List (Nat × V × Nat)) (k : Nat) :
    List (Nat × V × Nat) :=
  match m with
  | [] => []
  | (k', v, c) :: rest =>
    if k' = k then rest else (k', v, c) :: arcMainErase rest k

/-- `ArcLruPart::put`: overwrite-and-move-to-MRU on a hit (the access count is
not bumped by put), otherwise insert a fresh node. -/
def arcLruPut {V : Type} (s : ArcLruState V) (k : Nat) (v : V) : ArcLruState V :=
  if s.capacity = 0 then s
  else
    match arcMainLookup s.main k with
    | some vc => { s with main := arcMainErase s.main k ++ [(k, v, vc.2)] }
    | none => arcLruAddNewNode s k v

/-- `ArcLruPart::get`: on a hit return the value, bump the access count, move
the node to the MRU end, and report `shouldTransform` when the bumped count
reaches `transformThreshold_`. -/
def arcLruGet {V : Type} (s : ArcLruState V) (k : Nat) :
    Option V × Bool × ArcLruState V :=
  match arcMainLookup s.main k with
  | some vc =>
    (some vc.1, vc.2 + 1 ≥ s.threshold,
      { s with main := arcMainErase s.main k ++ [(k, vc.1, vc.2 + 1)] })
  | none => (none, false, s)

/-- `ArcLruPart::checkGhost`: report and unlink a ghost hit. -/
def arcLruCheckGhost {V : Type} (s : ArcLruState V) (k : Nat) :
    Bool × ArcLruState V :=
  if k ∈ s.ghost then (true, { s with ghost := s.ghost.erase k })
  else (false, s)

/-- `ArcLruPart::increaseCapacity`. -/
def arcLruIncCap {V : Type} (s : ArcLruState V) : ArcLruState V :=
  { s with capacity := s.capacity + 1 }

/-- `ArcLruPart::decreaseCapacity`: refuse when the capacity is already 0;
evict the LRU victim to the ghost when the partition is exactly full, then
decrement. -/
def arcLruDecCap {V : Type} (s : ArcLruState V) : ArcLruState V :=
  if s.capacity = 0 then s
  else
    let s1 := if s.main.length = s.capacity then arcLruEvictToGhost s else s
    { s1 with capacity := s1.capacity - 1 }

/-! ## ArcLfuPart (src/ArcCache/ArcLfuPart.h)

`freqMap_` is a `std::map` (ordered by frequency, `begin()` the smallest) of
`std::list`s with `push_back` insertion and `front()` eviction, so the head of
a bucket's Lean list is its oldest node.  Unlike `LfuCache`, empty buckets are
erased from the map. -/

/-- State of `ArcLfuPart<Nat, V>`.  `main` is the `mainCache_` index as
`(key, value, accessCount)` in insertion order; `freqMap` is sorted by
frequency with each bucket's keys oldest first; `ghost` lists ghost keys
oldest first. -/
structure ArcLfuState (V : Type) where
  capacity : Nat
  ghostCapacity : Nat
  threshold : Nat
  minFreq : Nat
  main : List (Nat × V × Nat)
  freqMap : List (Nat × List Nat)
  ghost : List Nat
  deriving Repr, DecidableEq

/-- A fresh `ArcLfuPart(capacity, transformThreshold)`. -/
def arcLfuInit (V : Type) (capacity threshold : Nat) : ArcLfuState V :=
  { capacity := capacity, ghostCapacity := capacity, threshold := threshold,
    minFreq := 1, main := [], freqMap := [], ghost := [] }

/-- Insertion of a bucket binding into the ordered `std::map`. -/
def fmSet (fm : List (Nat × List Nat)) (f : Nat) (l : List Nat) :
    List (Nat × List Nat) :=
  match fm with
  | [] => [(f, l)]
  | (f', l') :: rest =>
    if f = f' then (f, l) :: rest
    else if f < f' then (f, l) :: (f', l') :: rest
    else (f', l') :: fmSet rest f l

/-- `freqMap_.erase(f)`. -/
def fmErase (fm : List (Nat × List Nat)) (f : Nat) : List (Nat × List Nat) :=
  match fm with
  | [] => []
  | (f', l') :: rest => if f' = f then rest else (f', l') :: fmErase rest f

/-- `freqMap_[f].push_back(k)`, creating the bucket when absent. -/
def fmPushBack (fm : List (Nat × List Nat)) (f : Nat) (k : Nat) :
    List (Nat × List Nat) :=
  match alookup fm f with
  | some l => fmSet fm f (l ++ [k])
  | none => fmSet fm f [k]

/-- `ArcLfuPart::removeMainToGhost`: pop the front of the minimum-frequency
bucket, erase it from the index, drop the bucket (advancing `minFreq_` to the
new smallest frequency) when it drained, then push the victim's key into the
ghost FIFO with the usual overflow drop.  `freqMap_[minFreq_]` is `operator[]`
access: when the bucket is missing it is created empty and the function
returns without evicting. -/
def arcLfuEvictToGhost {V : Type} (s : ArcLfuState V) : ArcLfuState V :=
  if s.freqMap.isEmpty then s
  else
    match alookup s.freqMap s.minFreq with
    | none => { s with freqMap := fmSet s.freqMap s.minFreq [] }
    | some [] => s
    | some (victim :: rest) =>
      let s1 := { s with main := arcMainErase s.main victim }
      let s2 : ArcLfuState V :=
        if rest.isEmpty then
          let fm2 := fmErase s1.freqMap s1.minFreq
          { s1 with freqMap := fm2,
                    minFreq := match fm2 with
                               | [] => s1.minFreq
                               | (f, _) :: _ => f }
        else { s1 with freqMap := fmSet s1.freqMap s1.minFreq rest }
      if s2.ghost.length ≥ s2.ghostCapacity then
        match s2.ghost with
        | [] => s2
        | _ :: gt => { s2 with ghost := gt ++ [victim] }
      else { s2 with ghost := s2.ghost ++ [victim] }

/-- `ArcLfuPart::addNewNode`: evict when at capacity, install the node with
access count 1 at the back of bucket 1, and set `minFreq_ := 1`. -/
def arcLfuAddNewNode {V : Type} (s : ArcLfuState V) (k : Nat) (v : V) :
    ArcLfuState V :=
  let s1 := if s.main.length ≥ s.capacity then arcLfuEvictToGhost s else s
  { s1 with main := s1.main ++ [(k, v, 1)],
            freqMap := fmPushBack s1.freqMap 1 k,
            minFreq := 1 }

/-- In-place update of a key's node in an ARC main index (the node object is
mutated where it sits). -/
def arcMainSet {V : Type} (m : List (Nat × V × Nat)) (k : Nat) (v : V) (c : Nat) :
    List (Nat × V × Nat) :=
  match m with
  | [] => []
  | (k', v', c') :: rest =>
    if k' = k then (k, v, c) :: rest else (k', v', c') :: arcMainSet rest k v c

/-- `ArcLfuPart::updateNodePosition`: bump the node's access count, move it
from bucket `oldFreq` to the back of bucket `oldFreq + 1`, erasing the old
bucket when it drained and advancing `minFreq_` when it was the minimum. -/
def arcLfuUpdateNodePos {V : Type} (s : ArcLfuState V) (k : Nat) (oldFreq : Nat) :
    ArcLfuState V :=
  let newFreq := oldFreq + 1
  let main2 :=
    match arcMainLookup s.main k with
    | some vc => arcMainSet s.main k vc.1 newFreq
    | none => s.main
  let oldList := ((alookup s.freqMap oldFreq).getD []).erase k
  let s1 :=
    if oldList.isEmpty then
      { s with main := main2,
               freqMap := fmErase s.freqMap oldFreq,
               minFreq := if s.minFreq = oldFreq then newFreq else s.minFreq }
    else { s with main := main2, freqMap := fmSet s.freqMap oldFreq oldList }
  { s1 with freqMap := fmPushBack s1.freqMap newFreq k }

/-- `ArcLfuPart::put`: on a hit, `setValue` then `updateNodePosition`;
otherwise install a fresh node. -/
def arcLfuPut {V : Type} (s : ArcLfuState V) (k : Nat) (v : V) : ArcLfuState V :=
  if s.capacity = 0 then s
  else
    match arcMainLookup s.main k with
    | some vc => arcLfuUpdateNodePos { s with main := arcMainSet s.main k v vc.2 } k vc.2
    | none => arcLfuAddNewNode s k v

/-- `ArcLfuPart::get`: on a hit return the value and bump the node. -/
def arcLfuGet {V : Type} (s : ArcLfuState V) (k : Nat) : Option V × ArcLfuState V :=
  match arcMainLookup s.main k with
  | some vc => (some vc.1, arcLfuUpdateNodePos s k vc.2)
  | none => (none, s)

/-- `ArcLfuPart::checkGhost`. -/
def arcLfuCheckGhost {V : Type} (s : ArcLfuState V) (k : Nat) :
    Bool × ArcLfuState V :=
  if k ∈ s.ghost then (true, { s with ghost := s.ghost.erase k })
  else (false, s)

/-- `ArcLfuPart::increaseCapacity`. -/
def arcLfuIncCap {V : Type} (s : ArcLfuState V) : ArcLfuState V :=
  { s with capacity := s.capacity + 1 }

/-- `ArcLfuPart::decreaseCapacity`: refuse at capacity 0, evict when exactly
full, decrement. -/
def arcLfuDecCap {V : Type} (s : ArcLfuState V) : ArcLfuState V :=
  if s.capacity = 0 then s
  else
    let s1 := if s.main.length = s.capacity then arcLfuEvictToGhost s else s
    { s1 with capacity := s1.capacity - 1 }

/-! ## ArcCache (src/ArcCache/ArcCache.h) -/

/-- State of `ArcCache<Nat, V>`: the T1 recency partition (`lruPart_`, with
its B1 ghost) and the T2 frequency partition (`lfuPart_`, with its B2
ghost). -/
structure ArcState (V : Type) where
  lru : ArcLruState V
  lfu : ArcLfuState V
  deriving Repr, DecidableEq

/-- A fresh `ArcCache(capacity, transformThreshold)`: both partitions start
with the full capacity, and both ghost capacities equal it. -/
def arcInit (V : Type) (capacity threshold : Nat) : ArcState V :=
  { lru := arcLruInit V capacity threshold, lfu := arcLfuInit V capacity threshold }

/-- `ArcCache::checkGhostCaches`: a B1 hit grows T1 and shrinks T2 (removing
the key from B1); otherwise a B2 hit grows T2 and shrinks T1. -/
def arcCheckGhostCaches {V : Type} (s : ArcState V) (k : Nat) : Bool × ArcState V :=
  let g1 := arcLruCheckGhost s.lru k
  if g1.1 then
    (true, { lru := arcLruIncCap g1.2, lfu := arcLfuDecCap s.lfu })
  else
    let g2 := arcLfuCheckGhost s.lfu k
    if g2.1 then (true, { lru := arcLruDecCap s.lru, lfu := arcLfuIncCap g2.2 })
    else (false, s)

/-- `ArcCache::put`: adjust capacities on a ghost hit, then install the pair
in the recency partition (both branches of the C++ do the same). -/
def arcPut {V : Type} (s : ArcState V) (k : Nat) (v : V) : ArcState V :=
  let g := arcCheckGhostCaches s k
  { g.2 with lru := arcLruPut g.2.lru k v }

/-- `ArcCache::get`: adjust capacities on a ghost hit, probe T1 first — on a
T1 hit whose bumped access count reaches the threshold, also `put` the pair
into T2 — and fall back to T2. -/
def arcGet {V : Type} (s : ArcState V) (k : Nat) : Option V × ArcState V :=
  let g := arcCheckGhostCaches s k
  match arcLruGet g.2.lru k with
  | (some v, transform, lru2) =>
    let s2 := { g.2 with lru := lru2 }
    (some v, if transform then { s2 with lfu := arcLfuPut s2.lfu k v } else s2)
  | (none, _, _) =>
    let r := arcLfuGet g.2.lfu k
    (r.1, { g.2 with lfu := r.2 })

/-! ## Operation sequences and the sharded wrappers -/

/-- One engine operation of the uniform interface. -/
inductive Op where
  | oput (k : Nat) (v : String)
  | oget (k : Nat)
  deriving Repr, DecidableEq

/-- Run a `LruCache<Nat, String>` over an operation sequence. -/
def lruRun (ops : List Op) (s : LruState String) : LruState String :=
  ops.foldl (fun st op =>
    match op with
    | Op.oput k v => lruPut st k v
    | Op.oget k => (lruGetB st k).2) s

/-- Run a `LruKCache<Nat, String>` over an operation sequence. -/
def lruKRun (ops : List Op) (s : LruKState String) : LruKState String :=
  ops.foldl (fun st op =>
    match op with
    | Op.oput k v => lruKPut st k v
    | Op.oget k => (lruKGet st k).2) s

/-- Run a `LfuCache<Nat, String>` over an operation sequence. -/
def lfuRun (ops : List Op) (s : LfuState String) : LfuState String :=
  ops.foldl (fun st op =>
    match op with
    | Op.oput k v => lfuPut st k v
    | Op.oget k => (lfuGet st k).2) s

/-- Run an `ArcCache<Nat, String>` over an operation sequence. -/
def arcRun (ops : List Op) (s : ArcState String) : ArcState String :=
  ops.foldl (fun st op =>
    match op with
    | Op.oput k v => arcPut st k v
    | Op.oget k => (arcGet st k).2) s

/-- State of `HashLruCaches<Nat, String>`: `sliceNum_` shards, each an
independent `LruCache` of capacity `⌈capacity / sliceNum⌉`; the hash function
is a parameter (the spec assumes it only to be a function of the key). -/
structure HashLruState where
  sliceNum : Nat
  shards : List (LruState String)
  deriving Repr, DecidableEq

/-- A fresh `HashLruCaches(capacity, sliceNum)`.  `std::ceil(capacity /
(double)sliceNum)` is exact for cache-sized operands, modelled as ceiling
division. -/
def hashLruInit (capacity sliceNum : Nat) : HashLruState :=
  { sliceNum := sliceNum,
    shards := List.replicate sliceNum (lruInit String ((capacity + sliceNum - 1) / sliceNum)) }

/-- `HashLruCaches::put`: dispatch to shard `Hash(key) % sliceNum_`. -/
def hashLruPut (hash : Nat → Nat) (s : HashLruState) (k : Nat) (v : String) :
    HashLruState :=
  let i := hash k % s.sliceNum
  { s with shards := s.shards.set i (lruPut ((s.shards.get? i).getD (lruInit String 0)) k v) }

/-- `HashLruCaches::get`. -/
def hashLruGet (hash : Nat → Nat) (s : HashLruState) (k : Nat) :
    Option String × HashLruState :=
  let i := hash k % s.sliceNum
  let r := lruGetB ((s.shards.get? i).getD (lruInit String 0)) k
  (r.1, { s with shards := s.shards.set i r.2 })

/-- Run a `HashLruCaches` over an operation sequence. -/
def hashLruRun (hash : Nat → Nat) (ops : List Op) (s : HashLruState) : HashLruState :=
  ops.foldl (fun st op =>
    match op with
    | Op.oput k v => hashLruPut hash st k v
    | Op.oget k => (hashLruGet hash st k).2) s

/-- State of `HashLfuCache<Nat, String>`. -/
structure HashLfuState where
  sliceNum : Nat
  shards : List (LfuState String)
  deriving Repr, DecidableEq

/-- A fresh `HashLfuCache(capacity, sliceNum, maxAverageNum)`. -/
def hashLfuInit (capacity sliceNum maxAvg : Nat) : HashLfuState :=
  { sliceNum := sliceNum,
    shards := List.replicate sliceNum
      (lfuInit String ((capacity + sliceNum - 1) / sliceNum) maxAvg) }

/-- `HashLfuCache::put`. -/
def hashLfuPut (hash : Nat → Nat) (s : HashLfuState) (k : Nat) (v : String) :
    HashLfuState :=
  let i := hash k % s.sliceNum
  { s with shards := s.shards.set i (lfuPut ((s.shards.get? i).getD (lfuInit String 0 0)) k v) }

/-- `HashLfuCache::get`. -/
def hashLfuGet (hash : Nat → Nat) (s : HashLfuState) (k : Nat) :
    Option String × HashLfuState :=
  let i := hash k % s.sliceNum
  let r := lfuGet ((s.shards.get? i).getD (lfuInit String 0 0)) k
  (r.1, { s with shards := s.shards.set i r.2 })

/-- Run a `HashLfuCache` over an operation sequence. -/
def hashLfuRun (hash : Nat → Nat) (ops : List Op) (s : HashLfuState) : HashLfuState :=
  ops.foldl (fun st op =>
    match op with
    | Op.oput k v => hashLfuPut hash st k v
    | Op.oget k => (hashLfuGet hash st k).2) s

/-! ## Supporting lemmas about the association-list operations -/

theorem alookup_aset_self {α : Type} (m : List (Nat × α)) (k : Nat) (v : α) :
    alookup (aset m k v) k = some v := by
  induction m with
  | nil => simp [aset, alookup]
  | cons e rest ih =>
    obtain ⟨k', v'⟩ := e
    by_cases h : k' = k
    · simp [aset, alookup, h]
    · simp [aset, alookup, h, ih]

theorem alookup_append_single_none {α : Type} (m : List (Nat × α)) (k : Nat) (v : α)
    (h : alookup m k = none) : alookup (m ++ [(k, v)]) k = some v := by
  induction m with
  | nil => simp [alookup]
  | cons e rest ih =>
    obtain ⟨k', v'⟩ := e
    by_cases hk : k' = k
    · simp [alookup, hk] at h
    · simp [alookup, hk] at h ⊢
      exact ih h

theorem alookup_aerase_none {α : Type} (m : List (Nat × α)) (k j : Nat)
    (h : alookup m k = none) : alookup (aerase m j) k = none := by
  induction m with
  | nil => simp [aerase, alookup]
  | cons e rest ih =>
    obtain ⟨k', v'⟩ := e
    by_cases hk : k' = k
    · simp [alookup, hk] at h
    · simp [alookup, hk] at h
      by_cases hj : k' = j
      · simp [aerase, hj, h]
      · simp [aerase, hj, alookup, hk, ih h]

theorem arcMainLookup_append_single_none {V : Type} (m : List (Nat × V × Nat))
    (k : Nat) (v : V) (c : Nat) (h : arcMainLookup m k = none) :
    arcMainLookup (m ++ [(k, v, c)]) k = some (v, c) := by
  induction m with
  | nil => simp [arcMainLookup]
  | cons e rest ih =>
    obtain ⟨k', v', c'⟩ := e
    by_cases hk : k' = k
    · simp [arcMainLookup, hk] at h
    · simp [arcMainLookup, hk] at h ⊢
      exact ih h

theorem arcMainLookup_erase_none {V : Type} (m : List (Nat × V × Nat)) (k j : Nat)
    (h : arcMainLookup m k = none) :
    arcMainLookup (arcMainErase m j) k = none := by
  induction m with
  | nil => simp [arcMainErase, arcMainLookup]
  | cons e rest ih =>
    obtain ⟨k', v', c'⟩ := e
    by_cases hk : k' = k
    · simp [arcMainLookup, hk] at h
    · simp [arcMainLookup, hk] at h
      by_cases hj : k' = j
      · simp [arcMainErase, hj, h]
      · simp [arcMainErase, hj, arcMainLookup, hk, ih h]

theorem arcMainLookup_erase_self {V : Type} (m : List (Nat × V × Nat)) (k : Nat)
    (h : (m.map Prod.fst).Nodup) :
    arcMainLookup (arcMainErase m k) k = none := by
  induction m with
  | nil => simp [arcMainErase, arcMainLookup]
  | cons e rest ih =>
    obtain ⟨k', v', c'⟩ := e
    simp only [List.map_cons, List.nodup_cons] at h
    by_cases hk : k' = k
    · subst hk
      simp only [arcMainErase, if_pos rfl]
      clear ih
      induction rest with
      | nil => simp [arcMainLookup]
      | cons e2 rest2 ih2 =>
        obtain ⟨k2, v2, c2⟩ := e2
        simp only [List.map_cons, List.mem_cons, List.nodup_cons] at h
        have hk2 : ¬ k2 = k' := fun he => h.1 (Or.inl he.symm)
        simp only [arcMainLookup, if_neg hk2]
        exact ih2 ⟨fun hm => h.1 (Or.inr hm), h.2.2⟩
    · simp [arcMainErase, hk, arcMainLookup, ih h.2]

theorem arcMainLookup_set_self {V : Type} (m : List (Nat × V × Nat)) (k : Nat)
    (v : V) (c : Nat) (w : V × Nat) (h : arcMainLookup m k = some w) :
    arcMainLookup (arcMainSet m k v c) k = some (v, c) := by
  induction m with
  | nil => simp [arcMainLookup] at h
  | cons e rest ih =>
    obtain ⟨k', v', c'⟩ := e
    by_cases hk : k' = k
    · simp [arcMainSet, hk, arcMainLookup]
    · simp [arcMainLookup, hk] at h
      simp [arcMainSet, hk, arcMainLookup, ih h]

/-! ## Concrete scenario states -/

/-- LRU end-to-end scenario of §8.7: capacity 3, the three initial puts. -/
def lru6a : LruState String := lruPut (lruPut (lruPut (lruInit String 3) 1 "a") 2 "b") 3 "c"

/-- ... after `get(1)`. -/
def lru6b : Option String × LruState String := lruGetB lru6a 1

/-- ... after `put(4,"d")`. -/
def lru6c : LruState String := lruPut lru6b.2 4 "d"

/-- ... after `get(2)`. -/
def lru6d : Option String × LruState String := lruGetB lru6c 2

/-- ... after `put(1,"A")`. -/
def lru6e : LruState String := lruPut lru6d.2 1 "A"

/-- `LruKCache(2, 4, 2)` after `put(1,"a"); put(1,"a")` (the second put
promotes). -/
def lruK5 : LruKState String := lruKPut (lruKPut (lruKInit String 2 4 2) 1 "a") 1 "a"

/-- `LruKCache(2, 4, 2)` after one `put(1,"a")`. -/
def lruK7a : LruKState String := lruKPut (lruKInit String 2 4 2) 1 "a"

/-- ... after the interleaved `get(1)` (a miss) and the promoting second
`put(1,"a")`. -/
def lruK7b : LruKState String := lruKPut (lruKGet lruK7a 1).2 1 "a"

/-- `LfuCache(2, 2)` after `put(1,"a")`. -/
def lfu3a : LfuState String := lfuPut (lfuInit String 2 2) 1 "a"

/-- ... after `get(1)`. -/
def lfu3b : LfuState String := (lfuGet lfu3a 1).2

/-- ... after a second `get(1)`, whose average-frequency bump (3 > 2)
triggers the aging pass. -/
def lfu3c : LfuState String := (lfuGet lfu3b 1).2

/-- `LfuCache(1, 10)` after `put(1,"a")`. -/
def lfu4a : LfuState String := lfuPut (lfuInit String 1 10) 1 "a"

/-- ... after `get(1)` (node 1 now at frequency 2, `minFreq_` = 2). -/
def lfu4b : LfuState String := (lfuGet lfu4a 1).2

/-- ... after `put(2,"b")`, which evicts key 1 and inserts key 2 at
frequency 1. -/
def lfu4c : LfuState String := lfuPut lfu4b 2 "b"

/-- `ArcCache(1, 1)` after `put(1,"a")`. -/
def arcA1 : ArcState String := arcPut (arcInit String 1 1) 1 "a"

/-- ... after `get(1)` (T1 hit crossing the threshold installs 1 in T2). -/
def arcA2 : ArcState String := (arcGet arcA1 1).2

/-- ... after `put(2,"b")` (T1 evicts 1 to B1; 1 stays resident in T2). -/
def arcA3 : ArcState String := arcPut arcA2 2 "b"

/-- ... after `put(1,"c")` (B1 ghost hit: T1 capacity 1→2, shrinking T2
evicts 1 from T2 to B2 and drops T2's capacity to 0). -/
def arcA4 : ArcState String := arcPut arcA3 1 "c"

/-- ... after `put(3,"e")` (T1 evicts 2 to B1). -/
def arcA5 : ArcState String := arcPut arcA4 3 "e"

/-- ... after `put(2,"f")` (B1 ghost hit with T2 capacity already 0). -/
def arcA6 : ArcState String := arcPut arcA5 2 "f"

/-- `ArcCache(2, 1)` after `put(1,"a")`. -/
def arcB1 : ArcState String := arcPut (arcInit String 2 1) 1 "a"

/-- ... after `get(1)` (1 installed in T2 with value "a"). -/
def arcB2 : ArcState String := (arcGet arcB1 1).2

/-- ... after `put(1,"v2")` (T1's copy overwritten; T2 still holds "a"). -/
def arcB3 : ArcState String := arcPut arcB2 1 "v2"

/-- ... after `put(2,"b")`. -/
def arcB4 : ArcState String := arcPut arcB3 2 "b"

/-- ... after `put(3,"c")` (T1 evicts 1 to B1; T2 still holds (1,"a")). -/
def arcB5 : ArcState String := arcPut arcB4 3 "c"

/-! ## Claim theorems -/

/-- C6: for an LRU cache of capacity 3, the sequence `put(1,"a"); put(2,"b");
put(3,"c"); get(1); put(4,"d"); get(2); put(1,"A")` produces exactly the
residents, orders (MRU rightmost, i.e. at the list tail), return values,
eviction of key 2 and final overwrite of key 1 stated in the claim. -/
theorem lru_scenario_capacity3 :
    lru6a.order = [1, 2, 3]
    ∧ lru6a.map = [(1, "a"), (2, "b"), (3, "c")]
    ∧ lru6b.1 = some "a"
    ∧ lru6b.2.order = [2, 3, 1]
    ∧ lru6c.order = [3, 1, 4]
    ∧ alookup lru6c.map 2 = none
    ∧ alookup lru6c.map 3 = some "c"
    ∧ alookup lru6c.map 1 = some "a"
    ∧ alookup lru6c.map 4 = some "d"
    ∧ lru6d.1 = none
    ∧ lru6d.2.order = [3, 1, 4]
    ∧ lru6e.order = [3, 4, 1]
    ∧ alookup lru6e.map 1 = some "A" := by decide

/-- C5: the index-order consistency invariant fails on the code: in
`LruKCache(2, 4, 2)`, after `put(1,"a"); put(1,"a")` the promoting put has
unlinked key 1's node from the history cache's recency list (the list is
empty) while the history index still maps key 1 (to count 2) — a key in the
index with no entry in the ordering structure. -/
theorem lruK_index_order_inconsistency :
    alookup lruK5.history.map 1 = some 2
    ∧ lruK5.history.order = []
    ∧ alookup lruK5.main.map 1 = some "a" := by decide

/-- C7: evaluation of the LRU-K promotion gate at `LruKCache(2, 4, 2)`.
Before the Kth put, `get(1)` misses and key 1 is absent from the main cache;
after the second (promoting) put, key 1 is in the main cache and `get(1)`
returns "a" — but the key was only unlinked from the history recency list,
its history index entry survives with count 3, contradicting the claim's
"removed from history". -/
theorem lruK_promotion_gate_eval :
    (lruKGet lruK7a 1).1 = none
    ∧ alookup lruK7a.main.map 1 = none
    ∧ alookup lruK7a.history.map 1 = some 1
    ∧ alookup lruK7b.main.map 1 = some "a"
    ∧ (lruKGet lruK7b 1).1 = some "a"
    ∧ lruK7b.history.order = []
    ∧ alookup lruK7b.history.map 1 = some 3 := by decide

/-- C3: evaluation of the LFU aging pass at `LfuCache(2, 2)` after
`put(1,"a"); get(1); get(1)`.  The second get drives the average frequency to
3 > 2 and aging runs: key 1's frequency is correctly decayed from 3 to
3 − 2/2 = 2 and moved to bucket 2 (the only non-empty bucket) — but
`minFreq_` is recomputed as 1, the smallest frequency with an EMPTY list,
because the condition `pair.second && ! !pair.second->isEmpty()` double
negates `isEmpty`; the claim (and the smallest non-empty bucket) says 2. -/
theorem lfu_aging_minfreq_eval :
    alookup lfu3c.map 1 = some (2, "a")
    ∧ lfu3c.buckets = [(1, []), (2, [1]), (3, [])]
    ∧ lfu3c.minFreq = 1 := by decide

/-- C4: evaluation of the LFU miss-at-capacity put at `LfuCache(1, 10)` after
`put(1,"a"); get(1); put(2,"b")`.  The put correctly evicts key 1 (the oldest
entry of bucket `minFreq_` = 2) and inserts key 2 with frequency 1 into
bucket 1, but `minFreq_` stays 2: no statement in `LfuCache::put` ever
assigns `minFreq_ := 1`, contradicting the claim (and the code's own comment
"更新最小访问频率"). -/
theorem lfu_insert_minfreq_eval :
    alookup lfu4c.map 1 = none
    ∧ alookup lfu4c.map 2 = some (1, "b")
    ∧ alookup lfu4c.buckets 1 = some [2]
    ∧ lfu4c.minFreq = 2 := by decide

/-! ## Preservation lemmas for the ARC partitions -/

theorem nodup_not_mem_erase {l : List Nat} (a : Nat) (h : l.Nodup) :
    a ∉ l.erase a := by
  induction l with
  | nil => simp
  | cons b t ih =>
    rcases List.nodup_cons.mp h with ⟨hb, ht⟩
    by_cases hba : b = a
    · subst hba
      simpa [List.erase_cons] using hb
    · simp only [List.erase_cons, beq_iff_eq, if_neg hba, List.mem_cons]
      rintro (h1 | h2)
      · exact hba h1.symm
      · exact ih ht h2

theorem arcLruEvict_fields {V : Type} (s : ArcLruState V) :
    (arcLruEvictToGhost s).capacity = s.capacity
    ∧ (arcLruEvictToGhost s).ghostCapacity = s.ghostCapacity
    ∧ (arcLruEvictToGhost s).threshold = s.threshold
    ∧ (arcLruEvictToGhost s).main = s.main.tail := by
  unfold arcLruEvictToGhost
  cases hm : s.main with
  | nil => simp [hm]
  | cons e rest =>
    simp only [hm, List.tail_cons]
    split
    · split <;> simp
    · simp

theorem arcLruPut_fields {V : Type} (s : ArcLruState V) (k : Nat) (v : V) :
    (arcLruPut s k v).capacity = s.capacity
    ∧ (arcLruPut s k v).ghostCapacity = s.ghostCapacity
    ∧ (arcLruPut s k v).threshold = s.threshold := by
  unfold arcLruPut arcLruAddNewNode
  split
  · simp
  · split
    · simp
    · split
      · exact ⟨(arcLruEvict_fields s).1, (arcLruEvict_fields s).2.1,
               (arcLruEvict_fields s).2.2.1⟩
      · simp

theorem arcLruGet_fields {V : Type} (s : ArcLruState V) (k : Nat) :
    (arcLruGet s k).2.2.capacity = s.capacity
    ∧ (arcLruGet s k).2.2.ghost = s.ghost
    ∧ (arcLruGet s k).2.2.ghostCapacity = s.ghostCapacity
    ∧ (arcLruGet s k).2.2.threshold = s.threshold := by
  unfold arcLruGet
  split <;> simp_all

theorem arcLruDecCap_capacity {V : Type} (s : ArcLruState V) :
    (arcLruDecCap s).capacity = s.capacity - 1 := by
  unfold arcLruDecCap
  split
  · omega
  · split
    · simp [(arcLruEvict_fields s).1]
    · simp

theorem arcLfuEvict_fields {V : Type} (s : ArcLfuState V) :
    (arcLfuEvictToGhost s).capacity = s.capacity
    ∧ (arcLfuEvictToGhost s).ghostCapacity = s.ghostCapacity
    ∧ (arcLfuEvictToGhost s).threshold = s.threshold := by
  unfold arcLfuEvictToGhost
  split
  · simp
  · split
    · simp
    · simp
    · dsimp only
      split <;> split <;> (try split) <;> simp

theorem arcLfuUpdateNodePos_fields {V : Type} (s : ArcLfuState V) (k f : Nat) :
    (arcLfuUpdateNodePos s k f).capacity = s.capacity
    ∧ (arcLfuUpdateNodePos s k f).ghostCapacity = s.ghostCapacity
    ∧ (arcLfuUpdateNodePos s k f).ghost = s.ghost
    ∧ (arcLfuUpdateNodePos s k f).threshold = s.threshold := by
  unfold arcLfuUpdateNodePos
  dsimp only
  split <;> split <;> simp

theorem arcLfuPut_fields {V : Type} (s : ArcLfuState V) (k : Nat) (v : V) :
    (arcLfuPut s k v).capacity = s.capacity
    ∧ (arcLfuPut s k v).ghostCapacity = s.ghostCapacity
    ∧ (arcLfuPut s k v).threshold = s.threshold := by
  unfold arcLfuPut arcLfuAddNewNode
  split
  · simp
  · split
    · exact ⟨(arcLfuUpdateNodePos_fields _ _ _).1, (arcLfuUpdateNodePos_fields _ _ _).2.1,
             (arcLfuUpdateNodePos_fields _ _ _).2.2.2⟩
    · split
      · simp [(arcLfuEvict_fields s).1, (arcLfuEvict_fields s).2.1, (arcLfuEvict_fields s).2.2]
      · simp

theorem arcLfuGet_fields {V : Type} (s : ArcLfuState V) (k : Nat) :
    (arcLfuGet s k).2.capacity = s.capacity
    ∧ (arcLfuGet s k).2.ghost = s.ghost := by
  unfold arcLfuGet
  split
  · exact ⟨(arcLfuUpdateNodePos_fields _ _ _).1, (arcLfuUpdateNodePos_fields _ _ _).2.2.1⟩
  · simp_all

theorem arcLfuDecCap_capacity {V : Type} (s : ArcLfuState V) :
    (arcLfuDecCap s).capacity = s.capacity - 1 := by
  unfold arcLfuDecCap
  split
  · omega
  · split
    · simp [(arcLfuEvict_fields s).1]
    · simp

theorem arcCheckGhost_nomiss {V : Type} (s : ArcState V) (k : Nat)
    (h1 : k ∉ s.lru.ghost) (h2 : k ∉ s.lfu.ghost) :
    arcCheckGhostCaches s k = (false, s) := by
  simp [arcCheckGhostCaches, arcLruCheckGhost, arcLfuCheckGhost, h1, h2]

theorem arcCheckGhost_b1 {V : Type} (s : ArcState V) (k : Nat)
    (h1 : k ∈ s.lru.ghost) :
    arcCheckGhostCaches s k =
      (true, { lru := arcLruIncCap { s.lru with ghost := s.lru.ghost.erase k },
               lfu := arcLfuDecCap s.lfu }) := by
  simp [arcCheckGhostCaches, arcLruCheckGhost, h1]

theorem arcCheckGhost_b2 {V : Type} (s : ArcState V) (k : Nat)
    (h1 : k ∉ s.lru.ghost) (h2 : k ∈ s.lfu.ghost) :
    arcCheckGhostCaches s k =
      (true, { lru := arcLruDecCap s.lru,
               lfu := arcLfuIncCap { s.lfu with ghost := s.lfu.ghost.erase k } }) := by
  simp [arcCheckGhostCaches, arcLruCheckGhost, arcLfuCheckGhost, h1, h2]

theorem arcMainLookup_cons_none {V : Type} (e : Nat × V × Nat)
    (rest : List (Nat × V × Nat)) (k : Nat)
    (h : arcMainLookup (e :: rest) k = none) :
    e.1 ≠ k ∧ arcMainLookup rest k = none := by
  obtain ⟨k', v', c'⟩ := e
  by_cases hk : k' = k
  · simp [arcMainLookup, hk] at h
  · simp only [arcMainLookup, if_neg hk] at h
    exact ⟨hk, h⟩

theorem arcMainLookup_tail_none {V : Type} (m : List (Nat × V × Nat)) (k : Nat)
    (h : arcMainLookup m k = none) : arcMainLookup m.tail k = none := by
  cases m with
  | nil => simpa using h
  | cons e rest => exact (arcMainLookup_cons_none e rest k h).2

theorem arcLruPut_ghost_not_mem {V : Type} (s : ArcLruState V) (k : Nat) (v : V)
    (hg : k ∉ s.ghost) : k ∉ (arcLruPut s k v).ghost := by
  unfold arcLruPut
  split
  · exact hg
  · split
    · exact hg
    · rename_i hcap hlk
      unfold arcLruAddNewNode
      dsimp only
      split
      · unfold arcLruEvictToGhost
        cases hm : s.main with
        | nil => simpa using hg
        | cons e rest =>
          have hek : e.1 ≠ k := by
            rw [hm] at hlk
            exact (arcMainLookup_cons_none e rest k hlk).1
          dsimp only
          split
          · cases hgh : s.ghost with
            | nil => simp
            | cons g gt =>
              rw [hgh] at hg
              simp only [List.mem_cons, not_or] at hg
              simp only [List.mem_append, List.mem_singleton, not_or]
              exact ⟨hg.2, fun he => hek he.symm⟩
          · simp only [List.mem_append, List.mem_singleton, not_or]
            exact ⟨hg, fun he => hek he.symm⟩
      · exact hg

theorem arcLruDecCap_lookup_none {V : Type} (s : ArcLruState V) (k : Nat)
    (h : arcMainLookup s.main k = none) :
    arcMainLookup (arcLruDecCap s).main k = none := by
  unfold arcLruDecCap
  split
  · exact h
  · split
    · dsimp only
      rw [(arcLruEvict_fields s).2.2.2]
      exact arcMainLookup_tail_none s.main k h
    · exact h

theorem arcLfuDecCap_evicts {V : Type} (s : ArcLfuState V) (victim : Nat)
    (rest : List Nat) (hful : s.main.length = s.capacity) (hpos : 0 < s.capacity)
    (hb : alookup s.freqMap s.minFreq = some (victim :: rest))
    (hg : 0 < s.ghostCapacity) :
    (arcLfuDecCap s).main = arcMainErase s.main victim
    ∧ victim ∈ (arcLfuDecCap s).ghost := by
  have hcap : ¬ s.capacity = 0 := by omega
  have hfm : ¬ s.freqMap.isEmpty = true := by
    cases hf : s.freqMap
    · rw [hf] at hb; simp [alookup] at hb
    · simp [hf]
  unfold arcLfuDecCap
  rw [if_neg hcap, if_pos hful]
  unfold arcLfuEvictToGhost
  rw [if_neg hfm, hb]
  dsimp only
  split <;>
  · split
    · rename_i hlen
      cases hgh : s.ghost with
      | nil =>
        simp only [hgh] at hlen
        simp at hlen
        omega
      | cons g gt =>
        simp only [hgh] at hlen ⊢
        simp [List.mem_append]
    · simp [List.mem_append]

theorem arcLruDecCap_evicts {V : Type} (s : ArcLruState V) (e : Nat × V × Nat)
    (rest : List (Nat × V × Nat)) (hm : s.main = e :: rest)
    (hful : s.main.length = s.capacity) (hg : 0 < s.ghostCapacity) :
    (arcLruDecCap s).main = rest ∧ e.1 ∈ (arcLruDecCap s).ghost := by
  have hcap : ¬ s.capacity = 0 := by
    rw [hm] at hful
    simp only [List.length_cons] at hful
    omega
  unfold arcLruDecCap
  rw [if_neg hcap, if_pos hful]
  unfold arcLruEvictToGhost
  rw [hm]
  dsimp only
  split
  · rename_i hlen
    cases hgh : s.ghost with
    | nil =>
      simp only [hgh] at hlen
      simp at hlen
      omega
    | cons g gt =>
      simp only [hgh] at hlen ⊢
      simp [List.mem_append]
  · simp [List.mem_append]

theorem arcPut_eq {V : Type} (s : ArcState V) (k : Nat) (v : V) :
    arcPut s k v = { lru := arcLruPut (arcCheckGhostCaches s k).2.lru k v,
                     lfu := (arcCheckGhostCaches s k).2.lfu } := rfl

theorem arcGet_caps {V : Type} (s : ArcState V) (k : Nat) :
    (arcGet s k).2.lru.capacity = (arcCheckGhostCaches s k).2.lru.capacity
    ∧ (arcGet s k).2.lfu.capacity = (arcCheckGhostCaches s k).2.lfu.capacity
    ∧ (arcGet s k).2.lru.ghost = (arcCheckGhostCaches s k).2.lru.ghost := by
  have hf := arcLruGet_fields (arcCheckGhostCaches s k).2.lru k
  unfold arcGet
  dsimp only
  cases hr : arcLruGet (arcCheckGhostCaches s k).2.lru k with
  | mk o tl =>
    obtain ⟨t, l2⟩ := tl
    rw [hr] at hf
    dsimp only at hf
    cases o with
    | some v =>
      dsimp only
      split
      · exact ⟨hf.1, (arcLfuPut_fields _ k v).1, hf.2.1⟩
      · exact ⟨hf.1, rfl, hf.2.1⟩
    | none =>
      dsimp only
      exact ⟨rfl, (arcLfuGet_fields _ k).1, rfl⟩

theorem arcGet_miss_effects {V : Type} (s : ArcState V) (k : Nat)
    (hmiss : arcMainLookup (arcCheckGhostCaches s k).2.lru.main k = none) :
    (arcGet s k).2.lru = (arcCheckGhostCaches s k).2.lru
    ∧ (arcGet s k).2.lfu.ghost = (arcCheckGhostCaches s k).2.lfu.ghost := by
  have hlg : arcLruGet (arcCheckGhostCaches s k).2.lru k =
      (none, false, (arcCheckGhostCaches s k).2.lru) := by
    unfold arcLruGet
    rw [hmiss]
  unfold arcGet
  dsimp only
  rw [hlg]
  exact ⟨rfl, (arcLfuGet_fields _ k).2⟩

theorem arcLfuEvict_lookup_none {V : Type} (s : ArcLfuState V) (k : Nat)
    (h : arcMainLookup s.main k = none) :
    arcMainLookup (arcLfuEvictToGhost s).main k = none := by
  unfold arcLfuEvictToGhost
  split
  · exact h
  · split
    · exact h
    · exact h
    · dsimp only
      split <;> split <;> (try split) <;>
        exact arcMainLookup_erase_none s.main k _ h

theorem arcLfuPut_installs {V : Type} (s : ArcLfuState V) (k : Nat) (v : V)
    (hcap : ¬ s.capacity = 0) :
    ∃ f, arcMainLookup (arcLfuPut s k v).main k = some (v, f) := by
  unfold arcLfuPut
  rw [if_neg hcap]
  cases hl : arcMainLookup s.main k with
  | some vc =>
    refine ⟨vc.2 + 1, ?_⟩
    have h1 : arcMainLookup (arcMainSet s.main k v vc.2) k = some (v, vc.2) :=
      arcMainLookup_set_self s.main k v vc.2 vc hl
    unfold arcLfuUpdateNodePos
    dsimp only
    rw [h1]
    dsimp only
    split <;>
    · dsimp only
      exact arcMainLookup_set_self _ k v (vc.2 + 1) (v, vc.2) h1
  | none =>
    refine ⟨1, ?_⟩
    unfold arcLfuAddNewNode
    dsimp only
    split
    · exact arcMainLookup_append_single_none _ k v 1
        (arcLfuEvict_lookup_none s k hl)
    · exact arcMainLookup_append_single_none _ k v 1 hl

/-- C1 counterexample: on `ArcCache(1, 1)`, after
`put(1,"a"); get(1); put(2,"b"); put(1,"c"); put(3,"e")` key 2 sits in the B1
ghost list and T2's adaptively steered capacity is already 0; the next
`put(2,"f")` is a B1 ghost hit, T1's capacity does grow by 1, but T2's
capacity does NOT decrease by 1 — `ArcLfuPart::decreaseCapacity` refuses at
capacity 0 and it stays 0 — contradicting the claim's unconditional
"T2's capacity decreases by 1". -/
theorem arc_ghost_hit_cap0_cex :
    arcA6 = arcPut arcA5 2 "f"
    ∧ arcA5.lru.ghost = [2]
    ∧ arcA5.lfu.capacity = 0
    ∧ arcA6.lru.capacity = arcA5.lru.capacity + 1
    ∧ arcA6.lfu.capacity = arcA5.lfu.capacity := by decide

/-- C1 (amended): on every `put` or `get` of key `k` on the ARC cache, if `k`
is in the B1 ghost list then T1's capacity increases by 1 and T2's capacity
decreases by 1 whenever it is positive (truncated: a T2 capacity already
steered down to 0 stays 0, since `decreaseCapacity` refuses at 0), the shrink
evicting the front of T2's minimum-frequency bucket to the B2 ghost when T2
is exactly full and its ghost capacity is positive, and `k` is removed from
B1; symmetrically, if `k` is in B2 (and not in B1) then T2 grows by 1, T1
shrinks by 1 with its LRU head evicted to B1 when exactly full, and `k` is
removed from B2.  The ghost lists hold distinct keys in every reachable state
(`hn1`, `hn2`); the B2 `get` clause assumes `k` is not simultaneously
T1-resident, which holds in every reachable ghost state. -/
theorem arc_ghost_hit_steering {V : Type} (s : ArcState V) (k : Nat) (v : V)
    (hn1 : s.lru.ghost.Nodup) (hn2 : s.lfu.ghost.Nodup) :
    (k ∈ s.lru.ghost →
        (arcPut s k v).lru.capacity = s.lru.capacity + 1
      ∧ (arcPut s k v).lfu.capacity = s.lfu.capacity - 1
      ∧ k ∉ (arcPut s k v).lru.ghost
      ∧ (arcGet s k).2.lru.capacity = s.lru.capacity + 1
      ∧ (arcGet s k).2.lfu.capacity = s.lfu.capacity - 1
      ∧ k ∉ (arcGet s k).2.lru.ghost
      ∧ (∀ victim vrest, s.lfu.main.length = s.lfu.capacity → 0 < s.lfu.capacity →
          alookup s.lfu.freqMap s.lfu.minFreq = some (victim :: vrest) →
          0 < s.lfu.ghostCapacity →
          (arcPut s k v).lfu.main = arcMainErase s.lfu.main victim
          ∧ victim ∈ (arcPut s k v).lfu.ghost))
    ∧ (k ∉ s.lru.ghost → k ∈ s.lfu.ghost →
        (arcPut s k v).lfu.capacity = s.lfu.capacity + 1
      ∧ (arcPut s k v).lru.capacity = s.lru.capacity - 1
      ∧ k ∉ (arcPut s k v).lfu.ghost
      ∧ (arcMainLookup s.lru.main k = none →
            (arcGet s k).2.lfu.capacity = s.lfu.capacity + 1
          ∧ (arcGet s k).2.lru.capacity = s.lru.capacity - 1
          ∧ k ∉ (arcGet s k).2.lfu.ghost)
      ∧ (∀ e erest, s.lru.main = e :: erest → s.lru.main.length = s.lru.capacity →
          0 < s.lru.ghostCapacity →
          (arcCheckGhostCaches s k).2.lru.main = erest
          ∧ e.1 ∈ (arcCheckGhostCaches s k).2.lru.ghost)) := by
  constructor
  · intro hb1
    have hcg := arcCheckGhost_b1 s k hb1
    have hput := arcPut_eq s k v
    rw [hcg] at hput
    have hcaps := arcGet_caps s k
    rw [hcg] at hcaps
    dsimp only at hput hcaps
    have hke : k ∉ s.lru.ghost.erase k := nodup_not_mem_erase k hn1
    refine ⟨?_, ?_, ?_, ?_, ?_, ?_, ?_⟩
    · rw [hput]
      dsimp only
      rw [(arcLruPut_fields _ k v).1]
      rfl
    · rw [hput]
      dsimp only
      exact arcLfuDecCap_capacity s.lfu
    · rw [hput]
      dsimp only
      exact arcLruPut_ghost_not_mem _ k v hke
    · rw [hcaps.1]
      rfl
    · rw [hcaps.2.1]
      exact arcLfuDecCap_capacity s.lfu
    · rw [hcaps.2.2]
      exact hke
    · intro victim vrest hful hpos hbkt hgc
      have hev := arcLfuDecCap_evicts s.lfu victim vrest hful hpos hbkt hgc
      rw [hput]
      dsimp only
      exact hev
  · intro hnb1 hb2
    have hcg := arcCheckGhost_b2 s k hnb1 hb2
    have hput := arcPut_eq s k v
    rw [hcg] at hput
    have hke : k ∉ s.lfu.ghost.erase k := nodup_not_mem_erase k hn2
    refine ⟨?_, ?_, ?_, ?_, ?_⟩
    · rw [hput]
      rfl
    · rw [hput]
      dsimp only
      rw [(arcLruPut_fields _ k v).1]
      exact arcLruDecCap_capacity s.lru
    · rw [hput]
      dsimp only
      exact hke
    · intro hmiss
      have hmiss2 : arcMainLookup (arcCheckGhostCaches s k).2.lru.main k = none := by
        rw [hcg]
        dsimp only
        exact arcLruDecCap_lookup_none s.lru k hmiss
      have hme := arcGet_miss_effects s k hmiss2
      have hcaps := arcGet_caps s k
      rw [hcg] at hcaps
      dsimp only at hcaps
      refine ⟨?_, ?_, ?_⟩
      · rw [hcaps.2.1]
        rfl
      · rw [hcaps.1]
        exact arcLruDecCap_capacity s.lru
      · rw [hme.2, hcg]
        dsimp only
        exact hke
    · intro e erest hm hful hgc
      rw [hcg]
      dsimp only
      exact arcLruDecCap_evicts s.lru e erest hm hful hgc

/-- C1 witness: the amended theorem applied at the trace states.  At `arcA5`
with key 2 (a B1 hit onto a T2 of capacity 0), at `arcA3` with key 1 (a B1
hit whose T2 shrink evicts T2's only entry to B2), and at `arcA6` with key 1
(a B2 hit). -/
theorem arc_ghost_hit_steering_witness :
    ((2 : Nat) ∈ arcA5.lru.ghost
      ∧ (arcPut arcA5 2 "f").lru.capacity = arcA5.lru.capacity + 1
      ∧ (arcPut arcA5 2 "f").lfu.capacity = arcA5.lfu.capacity - 1
      ∧ 2 ∉ (arcPut arcA5 2 "f").lru.ghost)
    ∧ ((arcPut arcA3 1 "c").lfu.main = arcMainErase arcA3.lfu.main 1
      ∧ 1 ∈ (arcPut arcA3 1 "c").lfu.ghost)
    ∧ ((1 : Nat) ∉ arcA6.lru.ghost
      ∧ (1 : Nat) ∈ arcA6.lfu.ghost
      ∧ (arcPut arcA6 1 "g").lfu.capacity = arcA6.lfu.capacity + 1
      ∧ (arcPut arcA6 1 "g").lru.capacity = arcA6.lru.capacity - 1
      ∧ 1 ∉ (arcPut arcA6 1 "g").lfu.ghost) := by
  have h5 := (arc_ghost_hit_steering arcA5 2 "f" (by decide) (by decide)).1 (by decide)
  have h3 := (arc_ghost_hit_steering arcA3 1 "c" (by decide) (by decide)).1 (by decide)
  have h6 := (arc_ghost_hit_steering arcA6 1 "g" (by decide) (by decide)).2
    (by decide) (by decide)
  exact ⟨⟨by decide, h5.1, h5.2.1, h5.2.2.1⟩,
         h3.2.2.2.2.2.2 1 [] (by decide) (by decide) (by decide) (by decide),
         ⟨by decide, by decide, h6.1, h6.2.1, h6.2.2.1⟩⟩

/-- C2 counterexample: at `arcA6` (reached by ordinary operation of
`ArcCache(1,1)`) key 3 is T1-resident with access count 1 and in no ghost
list, while T2's steered capacity is 0.  `get(3)` hits T1, returns "e", and
the bumped count 2 reaches the promotion threshold 1, but `lfuPart_->put` is
a no-op at capacity 0: nothing is installed in T2, contradicting the claim's
unconditional installation. -/
theorem arc_t1_promotion_cap0_cex :
    arcMainLookup arcA6.lru.main 3 = some ("e", 1)
    ∧ arcA6.lru.threshold = 1
    ∧ arcA6.lfu.capacity = 0
    ∧ (arcGet arcA6 3).1 = some "e"
    ∧ (arcGet arcA6 3).2.lfu.main = [] := by decide

/-- C2 (amended): `ArcCache::get(k)` probes T1 before T2: when `k` is in
neither ghost list and is T1-resident with value `v` and access count `c`,
the get returns T1's value, bumps the count to `c + 1` and keeps `k`
T1-resident; when `c + 1` falls short of the promotion threshold T2 is
untouched, and when `c + 1` reaches it the pair `(k, v)` is additionally
installed in T2 (dual residency) provided T2's steered capacity is non-zero
(`ArcLfuPart::put` is a no-op at capacity 0). -/
theorem arc_get_t1_hit {V : Type} (s : ArcState V) (k : Nat) (v : V) (c : Nat)
    (hg1 : k ∉ s.lru.ghost) (hg2 : k ∉ s.lfu.ghost)
    (hmain : arcMainLookup s.lru.main k = some (v, c))
    (hnd : (s.lru.main.map Prod.fst).Nodup) :
    (arcGet s k).1 = some v
    ∧ arcMainLookup (arcGet s k).2.lru.main k = some (v, c + 1)
    ∧ (c + 1 < s.lru.threshold → (arcGet s k).2.lfu = s.lfu)
    ∧ (s.lru.threshold ≤ c + 1 → ¬ s.lfu.capacity = 0 →
        ∃ f, arcMainLookup (arcGet s k).2.lfu.main k = some (v, f)) := by
  have hcg := arcCheckGhost_nomiss s k hg1 hg2
  have hlg : arcLruGet s.lru k =
      (some v, decide (c + 1 ≥ s.lru.threshold),
       { s.lru with main := arcMainErase s.lru.main k ++ [(k, v, c + 1)] }) := by
    unfold arcLruGet
    rw [hmain]
  have hx : arcMainLookup (arcMainErase s.lru.main k ++ [(k, v, c + 1)]) k
      = some (v, c + 1) :=
    arcMainLookup_append_single_none _ k v (c + 1)
      (arcMainLookup_erase_self s.lru.main k hnd)
  unfold arcGet
  rw [hcg]
  dsimp only
  rw [hlg]
  cases hb : decide (c + 1 ≥ s.lru.threshold) with
  | false =>
    have hnotge : ¬ c + 1 ≥ s.lru.threshold := of_decide_eq_false hb
    exact ⟨rfl, hx, fun _ => rfl, fun hge _ => absurd hge hnotge⟩
  | true =>
    have hge : c + 1 ≥ s.lru.threshold := of_decide_eq_true hb
    exact ⟨rfl, hx, fun hlt => absurd hge (by omega),
           fun _ hcap => arcLfuPut_installs s.lfu k v hcap⟩

/-- C2 witness: the amended theorem at `arcB1` (`ArcCache(2,1)` holding
(1,"a") in T1 with count 1): `get(1)` returns "a", bumps the count to 2 ≥
threshold 1, and installs (1,"a") in T2. -/
theorem arc_get_t1_hit_witness :
    (arcGet arcB1 1).1 = some "a"
    ∧ arcMainLookup (arcGet arcB1 1).2.lru.main 1 = some ("a", 2)
    ∧ (∃ f, arcMainLookup (arcGet arcB1 1).2.lfu.main 1 = some ("a", f)) := by
  have h := arc_get_t1_hit arcB1 1 "a" 1 (by decide) (by decide) (by decide) (by decide)
  exact ⟨h.1, h.2.1, h.2.2.2 (by decide) (by decide)⟩

/-- C9 counterexample: `put` CAN change the T2 copy, through the ghost-hit
capacity steering: at `arcA3` key 1 is in B1 while T2 holds (1,"a");
`put(1,"c")` hits B1, the forced T2 shrink evicts exactly that entry to B2,
so after the put T2 no longer holds key 1 at all — its entry was not left
"unchanged". -/
theorem arc_put_t2_change_cex :
    (1 : Nat) ∈ arcA3.lru.ghost
    ∧ arcMainLookup arcA3.lfu.main 1 = some ("a", 1)
    ∧ arcMainLookup (arcPut arcA3 1 "c").lfu.main 1 = none
    ∧ (1 : Nat) ∈ (arcPut arcA3 1 "c").lfu.ghost := by decide

/-- C9 (amended): `ArcCache::put(k,v)` never writes T2 directly — when `k` is
in neither ghost list the whole T2 partition state (entries, buckets, ghost,
capacity) is unchanged by the put — though a ghost hit during a put may
shrink T2 and evict an entry (possibly `k`'s own, per the counterexample).
Consequently, in the capacity-2 trace, after `put(1,"v2")` T1 holds "v2"
while T2 still holds the older "a"; once T1 evicts key 1 (state `arcB5`) the
next `get(1)` falls through to T2 and returns "a", not "v2". -/
theorem arc_put_writes_only_t1 {V : Type} (s : ArcState V) (k : Nat) (v : V)
    (hg1 : k ∉ s.lru.ghost) (hg2 : k ∉ s.lfu.ghost) :
    (arcPut s k v).lfu = s.lfu
    ∧ arcMainLookup arcB3.lru.main 1 = some ("v2", 2)
    ∧ arcMainLookup arcB3.lfu.main 1 = some ("a", 1)
    ∧ (1 : Nat) ∈ arcB5.lru.ghost
    ∧ arcMainLookup arcB5.lfu.main 1 = some ("a", 1)
    ∧ (arcGet arcB5 1).1 = some "a" := by
  refine ⟨?_, by decide, by decide, by decide, by decide, by decide⟩
  rw [arcPut_eq, arcCheckGhost_nomiss s k hg1 hg2]

/-- C9 witness: the amended theorem at `arcB2` and key 1 — the `put(1,"v2")`
step of the trace leaves the whole T2 partition untouched — together with the
concrete consequence. -/
theorem arc_put_writes_only_t1_witness :
    (arcPut arcB2 1 "v2").lfu = arcB2.lfu
    ∧ (arcGet arcB5 1).1 = some "a" :=
  ⟨(arc_put_writes_only_t1 arcB2 1 "v2" (by decide) (by decide)).1,
   (arc_put_writes_only_t1 arcB2 1 "v2" (by decide) (by decide)).2.2.2.2.2⟩

/-! ## Lemmas for the LRU-K and capacity-0 claims -/

theorem lruGetB_fst {V : Type} (t : LruState V) (k : Nat) :
    (lruGetB t k).1 = alookup t.map k := by
  unfold lruGetB
  cases h : alookup t.map k <;> simp

theorem lruGetB_map {V : Type} (t : LruState V) (k : Nat) :
    (lruGetB t k).2.map = t.map ∧ (lruGetB t k).2.capacity = t.capacity := by
  unfold lruGetB
  cases h : alookup t.map k <;> simp

theorem lruPut_lookup_self {V : Type} (t : LruState V) (k : Nat) (v : V)
    (hcap : ¬ t.capacity = 0) : alookup (lruPut t k v).map k = some v := by
  unfold lruPut
  rw [if_neg hcap]
  cases hl : alookup t.map k with
  | some w => exact alookup_aset_self t.map k v
  | none =>
    unfold lruAddNewNode
    exact alookup_aset_self _ k v

/-- Folding `LruKCache::get` over a list of keys. -/
def lruKRunGets {V : Type} (ks : List Nat) (s : LruKState V) : LruKState V :=
  ks.foldl (fun st j => (lruKGet st j).2) s

/-- C10: `LruKCache::get` alone never installs a key into the main cache: no
get changes the main index (a hit only moves the node in the recency order);
a get of a key absent from main returns the miss value and leaves the whole
main cache unchanged, while still bumping the key's history count (shown for
a positive history capacity); and any sequence of gets leaves the main index
exactly as it was — so a key never passed to `put` misses no matter how many
times it is fetched and how large its history count grows. -/
theorem lruK_get_never_installs {V : Type} (s : LruKState V) (k : Nat)
    (hmiss : alookup s.main.map k = none) :
    (∀ (t : LruKState V) (j : Nat), (lruKGet t j).2.main.map = t.main.map)
    ∧ (lruKGet s k).1 = none
    ∧ (lruKGet s k).2.main = s.main
    ∧ (∀ (ks : List Nat) (t : LruKState V), (lruKRunGets ks t).main.map = t.main.map)
    ∧ (0 < s.history.capacity →
        alookup (lruKGet s k).2.history.map k
          = some ((alookup s.history.map k).getD 0 + 1)) := by
  have hmap : ∀ (t : LruKState V) (j : Nat), (lruKGet t j).2.main.map = t.main.map := by
    intro t j
    show (lruGetB t.main j).2.map = t.main.map
    exact (lruGetB_map t.main j).1
  have hrun : ∀ (ks : List Nat) (t : LruKState V),
      (lruKRunGets ks t).main.map = t.main.map := by
    intro ks
    induction ks with
    | nil => intro t; rfl
    | cons j rest ih =>
      intro t
      show (lruKRunGets rest (lruKGet t j).2).main.map = t.main.map
      rw [ih, hmap]
  have hbmiss : lruGetB s.main k = (none, s.main) := by
    unfold lruGetB
    rw [hmiss]
  refine ⟨hmap, ?_, ?_, hrun, ?_⟩
  · show (lruGetB s.main k).1 = none
    rw [hbmiss]
  · show (lruGetB s.main k).2 = s.main
    rw [hbmiss]
  · intro hcap
    have h1 := lruGetB_map s.history k
    have h2 := lruGetB_fst s.history k
    have hc : ¬ (lruGetB s.history k).2.capacity = 0 := by
      rw [h1.2]
      omega
    show alookup (lruPut (lruGetB s.history k).2 k
        ((lruGetB s.history k).1.getD 0 + 1)).map k
      = some ((alookup s.history.map k).getD 0 + 1)
    rw [lruPut_lookup_self _ k _ hc, h2]

/-- C10 witness: the theorem at a fresh `LruKCache(2, 4, 2)` and key 1: the
get misses and the history count becomes 1. -/
theorem lruK_get_never_installs_witness :
    (lruKGet (lruKInit String 2 4 2) 1).1 = none
    ∧ alookup (lruKGet (lruKInit String 2 4 2) 1).2.history.map 1 = some 1 := by
  have h := lruK_get_never_installs (lruKInit String 2 4 2) 1 rfl
  exact ⟨h.2.1, h.2.2.2.2 (by decide)⟩

theorem foldl_fixed {σ α : Type} (f : σ → α → σ) (c : σ) (l : List α)
    (h : ∀ a, f c a = c) : l.foldl f c = c := by
  induction l with
  | nil => rfl
  | cons a rest ih => rw [List.foldl_cons, h a, ih]

theorem foldl_inv {σ α : Type} (f : σ → α → σ) (P : σ → Prop) (c : σ)
    (l : List α) (hstep : ∀ t a, P t → P (f t a)) (hc : P c) :
    P (l.foldl f c) := by
  induction l generalizing c with
  | nil => exact hc
  | cons a rest ih => exact ih (f c a) (hstep c a hc)

theorem lruPut_cap0 {V : Type} (t : LruState V) (k : Nat) (v : V)
    (h : t.capacity = 0) : lruPut t k v = t := by
  unfold lruPut
  rw [if_pos h]

theorem lfuPut_cap0 {V : Type} (t : LfuState V) (k : Nat) (v : V)
    (h : t.capacity = 0) : lfuPut t k v = t := by
  unfold lfuPut
  rw [if_pos h]

theorem lruGetB_empty {V : Type} (t : LruState V) (k : Nat) (h : t.map = []) :
    lruGetB t k = (none, t) := by
  unfold lruGetB
  rw [h]
  rfl

theorem lfuGet_empty {V : Type} (t : LfuState V) (k : Nat) (h : t.map = []) :
    lfuGet t k = (none, t) := by
  unfold lfuGet
  rw [h]
  rfl

theorem replicate_get_opt {α : Type} (n i : Nat) (a : α) (h : i < n) :
    (List.replicate n a).get? i = some a := by
  induction n generalizing i with
  | zero => omega
  | succ m ih =>
    cases i with
    | zero => rfl
    | succ j =>
      rw [List.replicate_succ]
      exact ih j (by omega)

theorem set_replicate_self {α : Type} (n i : Nat) (a : α) :
    (List.replicate n a).set i a = List.replicate n a := by
  induction n generalizing i with
  | zero => rfl
  | succ m ih =>
    cases i with
    | zero => rfl
    | succ j =>
      rw [List.replicate_succ]
      show a :: (List.replicate m a).set j a = a :: List.replicate m a
      rw [ih]

theorem lruKPut_main_cap0 {V : Type} (t : LruKState V) (k : Nat) (v : V)
    (hm : t.main = lruInit V 0) : (lruKPut t k v).main = lruInit V 0 := by
  unfold lruKPut
  rw [hm]
  dsimp only
  rw [lruGetB_empty (lruInit V 0) k rfl]
  dsimp only
  split
  · exact lruPut_cap0 (lruInit V 0) k v rfl
  · rfl

theorem lruKGet_main_cap0 {V : Type} (t : LruKState V) (k : Nat)
    (hm : t.main = lruInit V 0) :
    (lruKGet t k).1 = none ∧ (lruKGet t k).2.main = lruInit V 0 := by
  constructor
  · show (lruGetB t.main k).1 = none
    rw [hm, lruGetB_empty (lruInit V 0) k rfl]
  · show (lruGetB t.main k).2 = lruInit V 0
    rw [hm, lruGetB_empty (lruInit V 0) k rfl]

theorem hashLruPut_cap0 (hash : Nat → Nat) (n : Nat) (hn : 0 < n) (k : Nat)
    (v : String) : hashLruPut hash (hashLruInit 0 n) k v = hashLruInit 0 n := by
  have hi : hash k % n < n := Nat.mod_lt _ hn
  have h2 : (hashLruInit 0 n).shards
      = List.replicate n (lruInit String ((0 + n - 1) / n)) := rfl
  unfold hashLruPut
  rw [show (hashLruInit 0 n).sliceNum = n from rfl, h2]
  dsimp only
  rw [replicate_get_opt n (hash k % n) _ hi, Option.getD_some,
      lruPut_cap0 (lruInit String ((0 + n - 1) / n)) k v
        (Nat.div_eq_of_lt (by omega)),
      set_replicate_self]
  rfl

theorem hashLruGet_cap0 (hash : Nat → Nat) (n : Nat) (hn : 0 < n) (k : Nat) :
    hashLruGet hash (hashLruInit 0 n) k = (none, hashLruInit 0 n) := by
  have hi : hash k % n < n := Nat.mod_lt _ hn
  have h2 : (hashLruInit 0 n).shards
      = List.replicate n (lruInit String ((0 + n - 1) / n)) := rfl
  unfold hashLruGet
  rw [show (hashLruInit 0 n).sliceNum = n from rfl, h2]
  dsimp only
  rw [replicate_get_opt n (hash k % n) _ hi, Option.getD_some,
      lruGetB_empty (lruInit String ((0 + n - 1) / n)) k rfl]
  dsimp only
  rw [set_replicate_self]
  rfl

theorem hashLfuPut_cap0 (hash : Nat → Nat) (n maxAvg : Nat) (hn : 0 < n) (k : Nat)
    (v : String) :
    hashLfuPut hash (hashLfuInit 0 n maxAvg) k v = hashLfuInit 0 n maxAvg := by
  have hi : hash k % n < n := Nat.mod_lt _ hn
  have h2 : (hashLfuInit 0 n maxAvg).shards
      = List.replicate n (lfuInit String ((0 + n - 1) / n) maxAvg) := rfl
  unfold hashLfuPut
  rw [show (hashLfuInit 0 n maxAvg).sliceNum = n from rfl, h2]
  dsimp only
  rw [replicate_get_opt n (hash k % n) _ hi, Option.getD_some,
      lfuPut_cap0 (lfuInit String ((0 + n - 1) / n) maxAvg) k v
        (Nat.div_eq_of_lt (by omega)),
      set_replicate_self]
  rfl

theorem hashLfuGet_cap0 (hash : Nat → Nat) (n maxAvg : Nat) (hn : 0 < n) (k : Nat) :
    hashLfuGet hash (hashLfuInit 0 n maxAvg) k = (none, hashLfuInit 0 n maxAvg) := by
  have hi : hash k % n < n := Nat.mod_lt _ hn
  have h2 : (hashLfuInit 0 n maxAvg).shards
      = List.replicate n (lfuInit String ((0 + n - 1) / n) maxAvg) := rfl
  unfold hashLfuGet
  rw [show (hashLfuInit 0 n maxAvg).sliceNum = n from rfl, h2]
  dsimp only
  rw [replicate_get_opt n (hash k % n) _ hi, Option.getD_some,
      lfuGet_empty (lfuInit String ((0 + n - 1) / n) maxAvg) k rfl]
  dsimp only
  rw [set_replicate_self]
  rfl

/-- C8 counterexample: `LruKCache(0, 2, 2)` — an engine constructed with
capacity 0 — is mutated by `put(1,"a")`: the put records key 1 with count 1
in the internal history cache (history capacity 2), so the cache state is NOT
unchanged, refuting "every put is a no-op (the cache state is unchanged)" for
every engine. -/
theorem lruK_cap0_put_mutates :
    lruKPut (lruKInit String 0 2 2) 1 "a" ≠ lruKInit String 0 2 2
    ∧ alookup (lruKPut (lruKInit String 0 2 2) 1 "a").history.map 1 = some 1 := by
  decide

/-- C8 (amended): for the LRU, LFU, ARC and the two hash-sharded engines
constructed with capacity 0, every sequence of operations leaves the state
exactly at its initial value (every put is a state no-op) and every get
misses.  For the LRU-K engine with main capacity 0, every get misses and the
main cache stays in its initial state under every operation sequence, but a
put is not a state no-op: it still records the key in the internal history
cache when the separate history capacity is positive (see the
counterexample). -/
theorem cap0_put_noop_get_miss (ops : List Op) (k maxAvg threshold hc kk n : Nat)
    (hash : Nat → Nat) (hn : 0 < n) :
    lruRun ops (lruInit String 0) = lruInit String 0
    ∧ (lruGetB (lruRun ops (lruInit String 0)) k).1 = none
    ∧ lfuRun ops (lfuInit String 0 maxAvg) = lfuInit String 0 maxAvg
    ∧ (lfuGet (lfuRun ops (lfuInit String 0 maxAvg)) k).1 = none
    ∧ arcRun ops (arcInit String 0 threshold) = arcInit String 0 threshold
    ∧ (arcGet (arcRun ops (arcInit String 0 threshold)) k).1 = none
    ∧ (lruKRun ops (lruKInit String 0 hc kk)).main = lruInit String 0
    ∧ (lruKGet (lruKRun ops (lruKInit String 0 hc kk)) k).1 = none
    ∧ hashLruRun hash ops (hashLruInit 0 n) = hashLruInit 0 n
    ∧ (hashLruGet hash (hashLruRun hash ops (hashLruInit 0 n)) k).1 = none
    ∧ hashLfuRun hash ops (hashLfuInit 0 n maxAvg) = hashLfuInit 0 n maxAvg
    ∧ (hashLfuGet hash (hashLfuRun hash ops (hashLfuInit 0 n maxAvg)) k).1 = none := by
  have hlru : lruRun ops (lruInit String 0) = lruInit String 0 := by
    unfold lruRun
    refine foldl_fixed _ _ ops ?_
    intro op
    cases op with
    | oput j v => exact lruPut_cap0 (lruInit String 0) j v rfl
    | oget j =>
      show (lruGetB (lruInit String 0) j).2 = lruInit String 0
      rw [lruGetB_empty (lruInit String 0) j rfl]
  have hlfu : lfuRun ops (lfuInit String 0 maxAvg) = lfuInit String 0 maxAvg := by
    unfold lfuRun
    refine foldl_fixed _ _ ops ?_
    intro op
    cases op with
    | oput j v => exact lfuPut_cap0 (lfuInit String 0 maxAvg) j v rfl
    | oget j =>
      show (lfuGet (lfuInit String 0 maxAvg) j).2 = lfuInit String 0 maxAvg
      rw [lfuGet_empty (lfuInit String 0 maxAvg) j rfl]
  have harc : arcRun ops (arcInit String 0 threshold) = arcInit String 0 threshold := by
    unfold arcRun
    refine foldl_fixed _ _ ops ?_
    intro op
    cases op with
    | oput j v => rfl
    | oget j => rfl
  have hlruK : (lruKRun ops (lruKInit String 0 hc kk)).main = lruInit String 0 := by
    unfold lruKRun
    refine foldl_inv _ (fun (t : LruKState String) => t.main = lruInit String 0) _ ops ?_ rfl
    intro t op ht
    cases op with
    | oput j v => exact lruKPut_main_cap0 t j v ht
    | oget j => exact (lruKGet_main_cap0 t j ht).2
  have hhlru : hashLruRun hash ops (hashLruInit 0 n) = hashLruInit 0 n := by
    unfold hashLruRun
    refine foldl_fixed _ _ ops ?_
    intro op
    cases op with
    | oput j v => exact hashLruPut_cap0 hash n hn j v
    | oget j =>
      show (hashLruGet hash (hashLruInit 0 n) j).2 = hashLruInit 0 n
      rw [hashLruGet_cap0 hash n hn j]
  have hhlfu : hashLfuRun hash ops (hashLfuInit 0 n maxAvg) = hashLfuInit 0 n maxAvg := by
    unfold hashLfuRun
    refine foldl_fixed _ _ ops ?_
    intro op
    cases op with
    | oput j v => exact hashLfuPut_cap0 hash n maxAvg hn j v
    | oget j =>
      show (hashLfuGet hash (hashLfuInit 0 n maxAvg) j).2 = hashLfuInit 0 n maxAvg
      rw [hashLfuGet_cap0 hash n maxAvg hn j]
  refine ⟨hlru, ?_, hlfu, ?_, harc, ?_, hlruK, ?_, hhlru, ?_, hhlfu, ?_⟩
  · rw [hlru, lruGetB_empty (lruInit String 0) k rfl]
  · rw [hlfu, lfuGet_empty (lfuInit String 0 maxAvg) k rfl]
  · rw [harc]
    rfl
  · exact (lruKGet_main_cap0 _ k hlruK).1
  · rw [hhlru, hashLruGet_cap0 hash n hn k]
  · rw [hhlfu, hashLfuGet_cap0 hash n maxAvg hn k]

/-- C8 witness: the amended theorem at a concrete operation sequence, key,
parameters, shard count 2 and the identity hash. -/
theorem cap0_put_noop_get_miss_witness :
    lruRun [Op.oput 1 "x", Op.oget 1] (lruInit String 0) = lruInit String 0
    ∧ arcRun [Op.oput 1 "x", Op.oget 1] (arcInit String 0 2) = arcInit String 0 2
    ∧ (lruKGet (lruKRun [Op.oput 1 "x", Op.oget 1] (lruKInit String 0 3 2)) 7).1 = none
    ∧ hashLruRun (fun j => j) [Op.oput 1 "x", Op.oget 1] (hashLruInit 0 2)
        = hashLruInit 0 2 := by
  have h := cap0_put_noop_get_miss [Op.oput 1 "x", Op.oget 1] 7 10 2 3 2 2
    (fun j => j) (by decide)
  exact ⟨h.1, h.2.2.2.2.1, h.2.2.2.2.2.2.2.1, h.2.2.2.2.2.2.2.2.1⟩
